import Mathlib

/-!
# ConePilot core verification

A shallow embedding of the ConePilot core, written from the repository
sources:

* `client/src/services/tsp.ts` — the greedy nearest-neighbor path planner
  (`calculateOptimalPath`);
* `client/src/store/useSessionStore.ts` — the simulation slice of the shared
  store (status, stats, telemetry, sequence logs, placement history) and its
  mutating actions;
* `client/src/components/session/RobotNode.tsx` — the simulation engine: the
  ordered sequence of store mutations a run performs (rotate/translate per
  segment, the five-step placement procedure, completion), modelled as an
  explicit action trace;
* `client/src/components/session/ControlPanel.tsx` — the start/stop calls
  (`resetSimulationStats(); setIsSimulating(true)` and
  `setIsSimulating(false)`);
* `client/src/services/rosbridge.ts` — the hardware-link client
  (connection flag, poll loop, poll-failure handling).

Numbers: the TypeScript sources use IEEE doubles.  Coordinates, distances
and times are embedded as exact rationals (`ℚ`).  `Math.sqrt` is strictly
monotone on nonnegative reals, so the planner's comparisons of
`sqrt(dx²+dy²)` values are embedded as comparisons of squared distances;
where an actual square-root *value* matters (the engine's accumulated
`distPx / scale`), the run is parametrised over the square-root routine
`sq : ℚ → ℚ`, and theorems that depend on its value take the defining
property of the square root at the relevant inputs as a hypothesis.
-/

/-- `Point` from `tsp.ts`: `{id: string, x: number, y: number}`. -/
structure Point where
  id : String
  x : ℚ
  y : ℚ
deriving DecidableEq, Repr

/-- Squared Euclidean distance.  `tsp.ts`'s `distance` returns
`Math.sqrt((a.x-b.x)² + (a.y-b.y)²)`; the planner only ever *compares*
distances, and `sqrt` is strictly monotone on nonnegatives, so comparing
`distanceSq` values is equivalent to comparing the source's `distance`
values. -/
def distanceSq (a b : Point) : ℚ :=
  (a.x - b.x) * (a.x - b.x) + (a.y - b.y) * (a.y - b.y)

/-- The scan `for (let i = 1; i < remaining.length; i++) { ... }` of
`calculateOptimalPath`: carries the running index `i` of the next candidate,
the current `nearestIndex` and `nearestDistance`, and updates them only on a
strictly smaller distance (`d < nearestDistance`), so the first of several
equidistant candidates wins. -/
def nearGo (c : Point) : List Point → ℕ → ℕ → ℚ → ℕ
  | [], _, bestIdx, _ => bestIdx
  | p :: rest, i, bestIdx, bestD =>
    if distanceSq c p < bestD then nearGo c rest (i + 1) i (distanceSq c p)
    else nearGo c rest (i + 1) bestIdx bestD

/-- Index of the nearest remaining point: `nearestIndex` starts at `0` with
`nearestDistance = distance(current, remaining[0])` and scans the tail from
index `1` (`tsp.ts` lines 25–34). -/
def nearestIndex (c hd : Point) (tl : List Point) : ℕ :=
  nearGo c tl 1 0 (distanceSq c hd)

/-- The `while (remaining.length > 0)` loop of `calculateOptimalPath`
(`tsp.ts` lines 24–39): pick `remaining[nearestIndex]`, append it to the
result, remove it (`splice`) and continue from it.  The loop runs exactly
`remaining.length` times; `fuel` is instantiated with the initial length. -/
def nnLoop : ℕ → Point → List Point → List Point
  | 0, _, _ => []
  | _ + 1, _, [] => []
  | fuel + 1, c, hd :: tl =>
    let i := nearestIndex c hd tl
    let p := (hd :: tl).getD i hd
    p :: nnLoop fuel p ((hd :: tl).eraseIdx i)

/-- `calculateOptimalPath` from `tsp.ts`: degenerate guards for zero and one
points, then the greedy nearest-neighbor loop starting from
`startPosition`. -/
def calculateOptimalPath (points : List Point) (startPosition : Point) :
    List Point :=
  if points.length = 0 then []
  else if points.length = 1 then points
  else nnLoop points.length startPosition points

example :
    calculateOptimalPath
      [⟨"A", 1, 0⟩, ⟨"B", 5, 0⟩, ⟨"C", 2, 0⟩] ⟨"start", 0, 0⟩ =
      [⟨"A", 1, 0⟩, ⟨"C", 2, 0⟩, ⟨"B", 5, 0⟩] := by
  norm_num [calculateOptimalPath, nnLoop, nearestIndex, nearGo, distanceSq]

/-- Default point used only to totalise list indexing in specifications;
every index we use is in bounds, so its value never matters. -/
def dummyPoint : Point := ⟨"", 0, 0⟩

/-- Characterisation of the candidate scan `nearGo`: either no candidate in
`rest` beats the incumbent distance `d` (result is the incumbent index `b`),
or the result is `i + k` for the first index `k` in `rest` whose distance is
strictly below `d`, is minimal among all of `rest`, and strictly beats every
earlier element of `rest`. -/
theorem nearGo_spec (c : Point) (rest : List Point) (i b : ℕ) (d : ℚ) :
    (nearGo c rest i b d = b ∧
      ∀ k, k < rest.length → d ≤ distanceSq c (rest.getD k dummyPoint)) ∨
    (∃ k, k < rest.length ∧ nearGo c rest i b d = i + k ∧
      distanceSq c (rest.getD k dummyPoint) < d ∧
      (∀ j, j < rest.length →
        distanceSq c (rest.getD k dummyPoint) ≤
          distanceSq c (rest.getD j dummyPoint)) ∧
      (∀ j, j < k →
        distanceSq c (rest.getD k dummyPoint) <
          distanceSq c (rest.getD j dummyPoint))) := by
  induction rest generalizing i b d with
  | nil =>
    left
    exact ⟨rfl, fun k hk => absurd hk (by simp)⟩
  | cons p rest ih =>
    by_cases h : distanceSq c p < d
    · rcases ih (i + 1) i (distanceSq c p) with ⟨hr, hall⟩ | ⟨k, hk, hr, hlt, hmin, hfirst⟩
      · right
        refine ⟨0, by simp, ?_, ?_, ?_, ?_⟩
        · simpa [nearGo, h] using hr
        · simpa using h
        · intro j hj
          cases j with
          | zero => simp
          | succ j =>
            simpa using hall j (by simpa using hj)
        · intro j hj; omega
      · right
        refine ⟨k + 1, by simpa using hk, ?_, ?_, ?_, ?_⟩
        · simp only [nearGo, if_pos h]
          rw [hr]; omega
        · exact lt_trans hlt h
        · intro j hj
          cases j with
          | zero => simpa using le_of_lt hlt
          | succ j => simpa using hmin j (by simpa using hj)
        · intro j hj
          cases j with
          | zero => simpa using hlt
          | succ j => simpa using hfirst j (by omega)
    · rcases ih (i + 1) b d with ⟨hr, hall⟩ | ⟨k, hk, hr, hlt, hmin, hfirst⟩
      · left
        refine ⟨by simpa [nearGo, h] using hr, ?_⟩
        intro j hj
        cases j with
        | zero => simpa using not_lt.mp h
        | succ j => simpa using hall j (by simpa using hj)
      · right
        refine ⟨k + 1, by simpa using hk, ?_, hlt, ?_, ?_⟩
        · simp only [nearGo, if_neg h]
          rw [hr]; omega
        · intro j hj
          cases j with
          | zero => simpa using le_of_lt (lt_of_lt_of_le hlt (not_lt.mp h))
          | succ j => simpa using hmin j (by simpa using hj)
        · intro j hj
          cases j with
          | zero => simpa using lt_of_lt_of_le hlt (not_lt.mp h)
          | succ j => simpa using hfirst j (by omega)

/-- The selected index is in bounds, achieves the minimum distance to the
current position over the whole remaining list, and strictly beats every
earlier remaining element (first-of-the-ties wins, because the scan updates
only on `d < nearestDistance`). -/
theorem nearestIndex_spec (c hd : Point) (tl : List Point) :
    nearestIndex c hd tl < (hd :: tl).length ∧
    (∀ j, j < (hd :: tl).length →
      distanceSq c ((hd :: tl).getD (nearestIndex c hd tl) dummyPoint) ≤
        distanceSq c ((hd :: tl).getD j dummyPoint)) ∧
    (∀ j, j < nearestIndex c hd tl →
      distanceSq c ((hd :: tl).getD (nearestIndex c hd tl) dummyPoint) <
        distanceSq c ((hd :: tl).getD j dummyPoint)) := by
  unfold nearestIndex
  rcases nearGo_spec c tl 1 0 (distanceSq c hd) with
    ⟨hr, hall⟩ | ⟨k, hk, hr, hlt, hmin, hfirst⟩
  · rw [hr]
    refine ⟨by simp, ?_, ?_⟩
    · intro j hj
      cases j with
      | zero => simp
      | succ j => simpa using hall j (by simpa using hj)
    · intro j hj; omega
  · have hr' : nearGo c tl 1 0 (distanceSq c hd) = k + 1 := by rw [hr]; omega
    rw [hr']
    refine ⟨by simp; omega, ?_, ?_⟩
    · intro j hj
      cases j with
      | zero => simpa using le_of_lt hlt
      | succ j => simpa using hmin j (by simpa using hj)
    · intro j hj
      cases j with
      | zero => simpa using hlt
      | succ j => simpa using hfirst j (by omega)

/-- Removing the element at an in-bounds index and re-consing it in front is
a permutation of the original list. -/
theorem perm_getD_cons_eraseIdx {α : Type} (l : List α) (i : ℕ) (d : α)
    (hi : i < l.length) : (l.getD i d :: l.eraseIdx i).Perm l := by
  induction l generalizing i with
  | nil => simp at hi
  | cons a t ih =>
    cases i with
    | zero => simp
    | succ i =>
      have ht : i < t.length := by simpa using hi
      have hperm := ih i ht
      have hswap : (t.getD i d :: a :: t.eraseIdx i).Perm
          (a :: t.getD i d :: t.eraseIdx i) := List.Perm.swap _ _ _
      simpa using hswap.trans (hperm.cons a)

/-- The greedy loop returns a permutation of its remaining list whenever
the fuel covers the list length. -/
theorem nnLoop_perm (fuel : ℕ) :
    ∀ (c : Point) (l : List Point), l.length ≤ fuel →
      (nnLoop fuel c l).Perm l := by
  induction fuel with
  | zero =>
    intro c l hl
    have : l = [] := List.length_eq_zero.mp (Nat.le_zero.mp hl)
    subst this
    simp [nnLoop]
  | succ fuel ih =>
    intro c l hl
    match l with
    | [] => simp [nnLoop]
    | hd :: tl =>
      have hi : nearestIndex c hd tl < (hd :: tl).length :=
        (nearestIndex_spec c hd tl).1
      have hlen : ((hd :: tl).eraseIdx (nearestIndex c hd tl)).length ≤ fuel := by
        have h2 : ((hd :: tl).eraseIdx (nearestIndex c hd tl)).length + 1 =
            tl.length + 1 := by
          simpa using List.length_eraseIdx_add_one hi
        simp at hl
        omega
      have hrest := ih ((hd :: tl).getD (nearestIndex c hd tl) hd)
        ((hd :: tl).eraseIdx (nearestIndex c hd tl)) hlen
      have hcons := hrest.cons ((hd :: tl).getD (nearestIndex c hd tl) hd)
      exact (List.Perm.trans (by simpa [nnLoop] using hcons)
        (perm_getD_cons_eraseIdx (hd :: tl) (nearestIndex c hd tl) hd hi))

/-- `calculateOptimalPath` agrees with the bare loop on every input (the
degenerate guards coincide with what the loop itself produces). -/
theorem calculateOptimalPath_eq_nnLoop (points : List Point)
    (startPosition : Point) :
    calculateOptimalPath points startPosition =
      nnLoop points.length startPosition points := by
  match points with
  | [] => rfl
  | [p] =>
    simp [calculateOptimalPath, nnLoop, nearestIndex, nearGo]
  | p :: q :: rest =>
    simp [calculateOptimalPath]

/-- Spec-side description of the greedy nearest-neighbor policy, written
from the spec's words: `GreedyOrder c rem out` holds when `out` is obtained
from the not-yet-visited points `rem` by repeatedly selecting a remaining
point of minimum Euclidean distance to the current position `c` — earliest
in the current remaining order when several are equidistant — appending it,
and advancing the current position to it. -/
inductive GreedyOrder : Point → List Point → List Point → Prop where
  | nil (c : Point) : GreedyOrder c [] []
  | cons (c : Point) (rem out : List Point) (i : ℕ) (hi : i < rem.length)
      (hmin : ∀ j, j < rem.length →
        distanceSq c (rem.getD i dummyPoint) ≤
          distanceSq c (rem.getD j dummyPoint))
      (hfirst : ∀ j, j < i →
        distanceSq c (rem.getD i dummyPoint) <
          distanceSq c (rem.getD j dummyPoint))
      (hrest : GreedyOrder (rem.getD i dummyPoint) (rem.eraseIdx i) out) :
      GreedyOrder c rem (rem.getD i dummyPoint :: out)

/-- The loop implements the greedy policy whenever the fuel covers the
remaining length. -/
theorem nnLoop_greedy (fuel : ℕ) :
    ∀ (c : Point) (l : List Point), l.length ≤ fuel →
      GreedyOrder c l (nnLoop fuel c l) := by
  induction fuel with
  | zero =>
    intro c l hl
    have : l = [] := List.length_eq_zero.mp (Nat.le_zero.mp hl)
    subst this
    exact GreedyOrder.nil c
  | succ fuel ih =>
    intro c l hl
    match l with
    | [] => exact GreedyOrder.nil c
    | hd :: tl =>
      obtain ⟨hi, hmin, hfirst⟩ := nearestIndex_spec c hd tl
      have hgetD : (hd :: tl).getD (nearestIndex c hd tl) hd =
          (hd :: tl).getD (nearestIndex c hd tl) dummyPoint := by
        rw [List.getD_eq_getElem _ _ hi, List.getD_eq_getElem _ _ hi]
      have hlen : ((hd :: tl).eraseIdx (nearestIndex c hd tl)).length ≤ fuel := by
        have h2 : ((hd :: tl).eraseIdx (nearestIndex c hd tl)).length + 1 =
            tl.length + 1 := by
          simpa using List.length_eraseIdx_add_one hi
        simp at hl
        omega
      have hrest := ih ((hd :: tl).getD (nearestIndex c hd tl) dummyPoint)
        ((hd :: tl).eraseIdx (nearestIndex c hd tl)) hlen
      have hstep := GreedyOrder.cons c (hd :: tl) _ (nearestIndex c hd tl)
        hi hmin hfirst hrest
      rw [← hgetD] at hstep
      exact hstep

/-- **C2**: for every input point list and origin, the planner's output
follows the greedy nearest-neighbor policy — each selected element is a
not-yet-selected input point of minimum Euclidean distance to the current
position (the previously selected point, or the origin initially), and among
equidistant candidates the one occurring first in the remaining input order
is selected; in particular, for origin `(0,0)` and input
`[A=(1,0), B=(0,1)]` (equidistant), `A` is selected first. -/
theorem C2_greedy_nearest_neighbor :
    (∀ (points : List Point) (origin : Point),
      GreedyOrder origin points (calculateOptimalPath points origin)) ∧
    calculateOptimalPath [⟨"A", 1, 0⟩, ⟨"B", 0, 1⟩] ⟨"start", 0, 0⟩ =
      [⟨"A", 1, 0⟩, ⟨"B", 0, 1⟩] := by
  constructor
  · intro points origin
    rw [calculateOptimalPath_eq_nnLoop]
    exact nnLoop_greedy points.length origin points le_rfl
  · norm_num [calculateOptimalPath, nnLoop, nearestIndex, nearGo, distanceSq]

/-- **C3**: for every input point list and origin, the planner's output is
exactly a permutation of the input points (same multiset of ids), never
dropping or duplicating a point; the empty input yields the empty output
and a single-point input yields that point unchanged. -/
theorem C3_planner_permutation :
    ∀ (points : List Point) (origin : Point),
      (calculateOptimalPath points origin).Perm points ∧
      ((calculateOptimalPath points origin).map Point.id).Perm
        (points.map Point.id) ∧
      calculateOptimalPath [] origin = [] ∧
      ∀ p : Point, calculateOptimalPath [p] origin = [p] := by
  intro points origin
  have hperm : (calculateOptimalPath points origin).Perm points := by
    rw [calculateOptimalPath_eq_nnLoop]
    exact nnLoop_perm points.length origin points le_rfl
  refine ⟨hperm, hperm.map Point.id, rfl, ?_⟩
  intro p
  simp [calculateOptimalPath]

/-- **C9**: the planner is a deterministic function of its inputs — any two
calls on equal inputs produce identical output order.  (In this embedding
`calculateOptimalPath` is a pure function, mirroring the source, which
mutates only its local copy `[...points]` of the input and touches no state
outside its own locals.) -/
theorem C9_planner_deterministic (points₁ points₂ : List Point)
    (origin₁ origin₂ : Point) (hp : points₁ = points₂)
    (ho : origin₁ = origin₂) :
    calculateOptimalPath points₁ origin₁ = calculateOptimalPath points₂ origin₂ := by
  rw [hp, ho]

/-- Witness for **C9** at a concrete input: two calls on the same two-point
list and origin return the same (fully evaluated) order. -/
theorem C9_planner_deterministic_witness :
    calculateOptimalPath [⟨"A", 1, 0⟩, ⟨"B", 0, 1⟩] ⟨"start", 0, 0⟩ =
      calculateOptimalPath [⟨"A", 1, 0⟩, ⟨"B", 0, 1⟩] ⟨"start", 0, 0⟩ :=
  C9_planner_deterministic _ _ _ _ rfl rfl

/-! ## The simulation engine

`RobotNode.tsx` drives a run as a single-threaded sequence of store
mutations (the zustand actions of `useSessionStore.ts`), interleaved with
tween/timer waits that touch no store state.  The engine is embedded as the
ordered list of store mutations (`Action`s) one run performs — faithful to
the cooperative, strictly sequential scheduling of the source — together
with the store's mutation functions.  Wall-clock nondeterminism (the
`Math.random()` jitter on mechanism-velocity telemetry and the `Date.now()`
measured duration of a placement) enters through a `RunEnv` parameter. -/

/-- A waypoint of the executed path: the plain `{x, y}` pairs stored in
`optimizedPath` and passed to `RobotNode` as `path`. -/
structure PathPoint where
  x : ℚ
  y : ℚ
deriving DecidableEq, Repr

/-- `simulationStatus` values of `useSessionStore.ts`. -/
inductive SimStatus where
  | IDLE
  | MOVING
  | PLACING
  | COMPLETED
deriving DecidableEq, Repr

/-- One entry of `currentSequenceLogs`: `{step: string, timeTaken: number}`. -/
structure SequenceLogEntry where
  step : String
  timeTaken : ℚ
deriving DecidableEq, Repr

/-- One entry of `placementHistory`:
`{coneIndex: number, totalTime: number, logs: {...}[]}`. -/
structure PlacementHistoryEntry where
  coneIndex : ℕ
  totalTime : ℚ
  logs : List SequenceLogEntry
deriving DecidableEq, Repr

/-- The simulation slice of the zustand store (`useSessionStore.ts`):
`isSimulating`, `simulationStatus`, `simulationStats`
(`conesPlaced`/`distanceTraveled`/`etaSeconds`), `robotTelemetry`
(`velocity`/`mechanismVelocity`), `currentSequenceLogs`,
`placementHistory`. -/
structure SimState where
  isSimulating : Bool
  simulationStatus : SimStatus
  conesPlaced : ℕ
  distanceTraveled : ℚ
  etaSeconds : ℚ
  velocity : ℚ
  mechanismVelocity : ℚ
  currentSequenceLogs : List SequenceLogEntry
  placementHistory : List PlacementHistoryEntry
deriving DecidableEq, Repr

/-- The store's initial simulation state (`useSessionStore.ts` lines
81–93). -/
def initialState : SimState :=
  { isSimulating := false
    simulationStatus := .IDLE
    conesPlaced := 0
    distanceTraveled := 0
    etaSeconds := 0
    velocity := 0
    mechanismVelocity := 0
    currentSequenceLogs := []
    placementHistory := [] }

/-- `setIsSimulating` (store line 233): sets the flag and *unconditionally*
forces `simulationStatus` to `MOVING` when turning on and `IDLE` when
turning off. -/
def setIsSimulating (b : Bool) (s : SimState) : SimState :=
  { s with isSimulating := b
           simulationStatus := if b then .MOVING else .IDLE }

/-- `setSimulationStatus` (store line 234). -/
def setSimulationStatus (st : SimStatus) (s : SimState) : SimState :=
  { s with simulationStatus := st }

/-- `updateSimulationStats` (store lines 235–237): partial-record merge of
`{conesPlaced?, distanceTraveled?, etaSeconds?}` into `simulationStats`. -/
def updateSimulationStats (cones : Option ℕ) (dist eta : Option ℚ)
    (s : SimState) : SimState :=
  { s with conesPlaced := cones.getD s.conesPlaced
           distanceTraveled := dist.getD s.distanceTraveled
           etaSeconds := eta.getD s.etaSeconds }

/-- `updateTelemetry` (store lines 238–240): partial-record merge of
`{velocity?, mechanismVelocity?}` into `robotTelemetry`. -/
def updateTelemetry (vel mech : Option ℚ) (s : SimState) : SimState :=
  { s with velocity := vel.getD s.velocity
           mechanismVelocity := mech.getD s.mechanismVelocity }

/-- `addSequenceLog` (store lines 241–243): appends at the end. -/
def addSequenceLog (log : SequenceLogEntry) (s : SimState) : SimState :=
  { s with currentSequenceLogs := s.currentSequenceLogs ++ [log] }

/-- `addPlacementHistory` (store lines 244–246): prepends (newest first). -/
def addPlacementHistory (entry : PlacementHistoryEntry) (s : SimState) :
    SimState :=
  { s with placementHistory := entry :: s.placementHistory }

/-- `clearSequenceLogs` (store line 247). -/
def clearSequenceLogs (s : SimState) : SimState :=
  { s with currentSequenceLogs := [] }

/-- `resetSimulationStats` (store lines 248–254): zeroes stats and
telemetry, clears logs and history, returns status to `IDLE` (leaves
`isSimulating` untouched). -/
def resetSimulationStats (s : SimState) : SimState :=
  { s with conesPlaced := 0
           distanceTraveled := 0
           etaSeconds := 0
           velocity := 0
           mechanismVelocity := 0
           currentSequenceLogs := []
           placementHistory := []
           simulationStatus := .IDLE }

/-- One store mutation performed by the engine during a run.  Each
constructor corresponds to one concrete store call in `RobotNode.tsx`;
`arrive` and `archive` read the current state (`getState()`) as part of
their semantics, exactly as the source does. -/
inductive StoreAction where
  | setStatus (st : SimStatus)
  | telemetry (vel mech : Option ℚ)
  | setEta (eta : ℚ)
  | arrive (len : ℚ) (cones : ℕ)
  | logStep (l : SequenceLogEntry)
  | archive (cone : ℕ) (totalTime : ℚ)
  | clearLogs
deriving DecidableEq, Repr

/-- Semantics of one engine store call, in terms of the store actions. -/
def applyAction : StoreAction → SimState → SimState
  | .setStatus st, s => setSimulationStatus st s
  | .telemetry vel mech, s => updateTelemetry vel mech s
  | .setEta eta, s => updateSimulationStats none none (some eta) s
  | .arrive len cones, s =>
      updateSimulationStats (some cones) (some (s.distanceTraveled + len))
        none s
  | .logStep l, s => addSequenceLog l s
  | .archive cone t, s =>
      addPlacementHistory ⟨cone, t, s.currentSequenceLogs⟩ s
  | .clearLogs, s => clearSequenceLogs s

/-- Executing a list of store calls in program order. -/
def foldActs (acts : List StoreAction) (s : SimState) : SimState :=
  acts.foldl (fun st a => applyAction a st) s

/-- Wall-clock nondeterminism of a run: `jitter cone step tick` is the
`Math.random() * 0.1 - 0.05` draw added to the nominal mechanism velocity
at one 100 ms telemetry tick, and `placementMs cone` is the `Date.now()`
measured duration (ms) of the whole placement at waypoint `cone`. -/
structure RunEnv where
  jitter : ℕ → ℕ → ℕ → ℚ
  placementMs : ℕ → ℚ

/-- One hardware step of the placement procedure: name, fixed nominal
duration (ms) and nominal mechanism velocity. -/
structure HardwareStep where
  name : String
  durationMs : ℕ
  mechVelocity : ℚ
deriving DecidableEq, Repr

/-- The fixed five-step placement procedure of `runPlacementSequence`
(`RobotNode.tsx` lines 58–71). -/
def hardwareSteps : List HardwareStep :=
  [⟨"LOWERING_CLAW_SERVO_A1", 1200, 0.4⟩,
   ⟨"ENGAGING_GRIPPER_SOLENOID", 600, 0.1⟩,
   ⟨"LIFTING_PAYLOAD_Z_AXIS", 1000, 0.35⟩,
   ⟨"ACTIVATING_SPIRAL_GYRO", 800, 0.8⟩,
   ⟨"PAYLOAD_SECURED_CONFIRMED", 200, 0⟩]

/-- Store calls of `simulateHardwareStep(name, durationMs, mechVelocity)`:
a 100 ms interval fires `ceil(durationMs/100)` times, each writing jittered
mechanism-velocity telemetry; on the tick where `elapsed >= durationMs` it
additionally appends one sequence log with the *nominal* time
`durationMs / 1000` and resets mechanism velocity to `0`. -/
def stepActs (env : RunEnv) (cone stepIdx : ℕ) : HardwareStep → List StoreAction
  | ⟨name, durationMs, mechVelocity⟩ =>
    ((List.range ((durationMs + 99) / 100)).map fun t =>
        StoreAction.telemetry none
          (some (mechVelocity + env.jitter cone stepIdx t)))
      ++ [StoreAction.logStep ⟨name, (durationMs : ℚ) / 1000⟩,
          StoreAction.telemetry none (some 0)]

/-- The log entries a full placement accumulates: one per hardware step,
carrying the step's name and its nominal duration in seconds. -/
def stepLogs : List SequenceLogEntry :=
  hardwareSteps.map fun st => ⟨st.name, (st.durationMs : ℚ) / 1000⟩

/-- Store calls of `runPlacementSequence(coneIndex)` *before* the history
write: set status `PLACING`, clear the log buffer, then run the five
hardware steps in order (the source awaits the five `simulateHardwareStep`
calls sequentially, lines 58–71). -/
def placementPre (env : RunEnv) (cone : ℕ) : List StoreAction :=
  [StoreAction.setStatus .PLACING, StoreAction.clearLogs]
    ++ stepActs env cone 0 ⟨"LOWERING_CLAW_SERVO_A1", 1200, 0.4⟩
    ++ stepActs env cone 1 ⟨"ENGAGING_GRIPPER_SOLENOID", 600, 0.1⟩
    ++ stepActs env cone 2 ⟨"LIFTING_PAYLOAD_Z_AXIS", 1000, 0.35⟩
    ++ stepActs env cone 3 ⟨"ACTIVATING_SPIRAL_GYRO", 800, 0.8⟩
    ++ stepActs env cone 4 ⟨"PAYLOAD_SECURED_CONFIRMED", 200, 0⟩

/-- All store calls of `runPlacementSequence(coneIndex)` (`RobotNode.tsx`
lines 51–85): the pre-phase, then `addPlacementHistory` with the measured
total time and the accumulated logs, then status back to `MOVING`. -/
def placementActs (env : RunEnv) (cone : ℕ) : List StoreAction :=
  placementPre env cone
    ++ [StoreAction.archive cone (env.placementMs cone / 1000),
        StoreAction.setStatus .MOVING]

/-- `distPx` of `playNextSegment`: the straight-line pixel distance between
the scaled endpoints of segment `(p1, p2)`, where `sq` stands for
`Math.sqrt`. -/
def distPx (sq : ℚ → ℚ) (scale : ℚ) (p1 p2 : PathPoint) : ℚ :=
  sq ((p2.x * scale - p1.x * scale) * (p2.x * scale - p1.x * scale) +
      (p2.y * scale - p1.y * scale) * (p2.y * scale - p1.y * scale))

/-- Store calls of the movement part of `playNextSegment(index)`
(`RobotNode.tsx` lines 116–162): the rotation tween writes no store state;
then velocity telemetry is set to `speed / scale` (speed = 50), the
translation tween runs (no store writes), and on arrival velocity resets to
`0` and `updateSimulationStats` adds `distPx / scale` to the travelled
distance and sets `conesPlaced := index + 1`. -/
def moveActs (sq : ℚ → ℚ) (scale : ℚ) (index : ℕ) (p1 p2 : PathPoint) :
    List StoreAction :=
  [StoreAction.telemetry (some (50 / scale)) none,
   StoreAction.telemetry (some 0) none,
   StoreAction.arrive (distPx sq scale p1 p2 / scale) (index + 1)]

/-- All store calls of one full segment: movement, then the placement
procedure for waypoint `index + 1`. -/
def segmentActs (env : RunEnv) (sq : ℚ → ℚ) (scale : ℚ) (index : ℕ)
    (p1 p2 : PathPoint) : List StoreAction :=
  moveActs sq scale index p1 p2 ++ placementActs env (index + 1)

/-- Store calls of the completion branch of `playNextSegment`
(`RobotNode.tsx` lines 108–113): status `COMPLETED`, `etaSeconds := 0`,
velocity `0`. -/
def completionActs : List StoreAction :=
  [StoreAction.setStatus .COMPLETED, StoreAction.setEta 0,
   StoreAction.telemetry (some 0) none]

/-- The recursion of `playNextSegment`: at `index >= path.length - 1` emit
the completion calls, otherwise play segment `(index, index + 1)` and
continue.  The recursion runs at most `path.length` times; `fuel` is
instantiated with `path.length`. -/
def playActs (env : RunEnv) (sq : ℚ → ℚ) (scale : ℚ) (path : List PathPoint) :
    ℕ → ℕ → List StoreAction
  | 0, _ => []
  | fuel + 1, index =>
    if path.length - 1 ≤ index then completionActs
    else
      segmentActs env sq scale index (path.getD index ⟨0, 0⟩)
          (path.getD (index + 1) ⟨0, 0⟩)
        ++ playActs env sq scale path fuel (index + 1)

/-- All store calls of one run of the `RobotNode` effect (lines 89–179):
nothing at all if `path.length < 2` (the guard aborts before any store
write), otherwise the initial `setSimulationStatus('MOVING')` followed by
`playNextSegment(0)`. -/
def runActs (env : RunEnv) (sq : ℚ → ℚ) (scale : ℚ)
    (path : List PathPoint) : List StoreAction :=
  if path.length < 2 then []
  else StoreAction.setStatus .MOVING :: playActs env sq scale path path.length 0

/-- `handleStartPlacing` of `ControlPanel.tsx` (lines 22–23):
`resetSimulationStats(); setIsSimulating(true)`. -/
def startRun (s : SimState) : SimState :=
  setIsSimulating true (resetSimulationStats s)

/-- A whole run driven to completion: the start calls, then every store
call of the engine in program order. -/
def runAll (env : RunEnv) (sq : ℚ → ℚ) (scale : ℚ)
    (path : List PathPoint) (s : SimState) : SimState :=
  foldActs (runActs env sq scale path) (startRun s)

/-- Folding an appended list of store calls runs the two parts in
sequence. -/
theorem foldActs_append (L₁ L₂ : List StoreAction) (s : SimState) :
    foldActs (L₁ ++ L₂) s = foldActs L₂ (foldActs L₁ s) := by
  simp [foldActs]

/-- Net store effect of one full placement procedure
(`runPlacementSequence`): status back to `MOVING`, mechanism velocity `0`,
the log buffer holding exactly the five per-step entries, and one
`PlacementHistoryEntry` — waypoint index, measured total time, the
accumulated logs — prepended to the history.  Note the buffer is *not*
cleared at the end: it still holds the five entries. -/
theorem foldActs_placementActs (env : RunEnv) (cone : ℕ) (s : SimState) :
    foldActs (placementActs env cone) s =
      { s with simulationStatus := .MOVING
               mechanismVelocity := 0
               currentSequenceLogs := stepLogs
               placementHistory :=
                 ⟨cone, env.placementMs cone / 1000, stepLogs⟩ ::
                   s.placementHistory } := by
  simp [foldActs, placementActs, placementPre, stepActs, stepLogs,
    hardwareSteps, applyAction, updateTelemetry, addSequenceLog,
    addPlacementHistory, clearSequenceLogs, setSimulationStatus,
    List.range_succ]

/-- Net store effect of the movement part of one segment: velocity reset to
`0`, travelled distance increased by exactly `distPx / scale`, and
`conesPlaced` set to `index + 1`. -/
theorem foldActs_moveActs (sq : ℚ → ℚ) (scale : ℚ) (index : ℕ)
    (p1 p2 : PathPoint) (s : SimState) :
    foldActs (moveActs sq scale index p1 p2) s =
      { s with velocity := 0
               conesPlaced := index + 1
               distanceTraveled :=
                 s.distanceTraveled + distPx sq scale p1 p2 / scale } := by
  simp [foldActs, moveActs, applyAction, updateTelemetry,
    updateSimulationStats]

/-- Net store effect of the completion branch. -/
theorem foldActs_completionActs (s : SimState) :
    foldActs completionActs s =
      { s with simulationStatus := .COMPLETED, etaSeconds := 0,
               velocity := 0 } := by
  simp [foldActs, completionActs, applyAction, updateTelemetry,
    updateSimulationStats, setSimulationStatus]

/-- Complete evaluation of a run over a three-point path (origin plus two
targets): final state after `handleStartPlacing` and the whole engine
trace. -/
theorem runAll_three_point (env : RunEnv) (sq : ℚ → ℚ) (scale : ℚ)
    (p0 p1 p2 : PathPoint) (s0 : SimState) :
    runAll env sq scale [p0, p1, p2] s0 =
      { isSimulating := true
        simulationStatus := .COMPLETED
        conesPlaced := 2
        distanceTraveled :=
          distPx sq scale p0 p1 / scale + distPx sq scale p1 p2 / scale
        etaSeconds := 0
        velocity := 0
        mechanismVelocity := 0
        currentSequenceLogs := stepLogs
        placementHistory :=
          [⟨2, env.placementMs 2 / 1000, stepLogs⟩,
           ⟨1, env.placementMs 1 / 1000, stepLogs⟩] } := by
  simp [runAll, runActs, playActs, segmentActs, moveActs, completionActs,
    placementActs, placementPre, stepActs, stepLogs, hardwareSteps,
    startRun, setIsSimulating, resetSimulationStats, setSimulationStatus,
    updateSimulationStats, updateTelemetry, addSequenceLog,
    addPlacementHistory, clearSequenceLogs, applyAction, foldActs,
    List.range_succ]

/-- **C1**: for every path of length 3 (origin plus two targets), a run
started on it and driven to completion produces exactly 2
`PlacementHistoryEntry` records — one per non-origin waypoint (cone indices
2 and 1, newest first) — ends in the `COMPLETED` state, and leaves
`conesPlaced = 2`.  Universally quantified over the waypoints, the
square-root routine, the canvas scale, the wall-clock environment and the
pre-existing store state. -/
theorem C1_three_point_run (env : RunEnv) (sq : ℚ → ℚ) (scale : ℚ)
    (p0 p1 p2 : PathPoint) (s0 : SimState) :
    (runAll env sq scale [p0, p1, p2] s0).placementHistory.length
        = 2 ∧
    (runAll env sq scale [p0, p1, p2] s0).placementHistory.map
        PlacementHistoryEntry.coneIndex = [2, 1] ∧
    (runAll env sq scale [p0, p1, p2] s0).simulationStatus =
        .COMPLETED ∧
    (runAll env sq scale [p0, p1, p2] s0).conesPlaced = 2 := by
  rw [runAll_three_point]
  simp

/-- **C6**: on each translation completion the velocity telemetry resets to
`0`, the cumulative `distanceTraveled` increases by exactly that segment's
length in meters (`distPx / scale`), and `conesPlaced` is set to the count
of waypoints reached so far; consequently, for the 2-segment path
`(0,0) → (3,0) → (3,4)` at scale 1 — segment lengths 3.0 and 4.0 meters —
`distanceTraveled` after full completion equals exactly 7.0, for any
square-root routine `sq` that is correct at the two squared lengths 9 and
16. -/
theorem C6_distance_accumulation (env : RunEnv) (sq : ℚ → ℚ)
    (s0 : SimState) (h9 : sq 9 = 3) (h16 : sq 16 = 4) :
    (∀ (sqA : ℚ → ℚ) (scale : ℚ) (index : ℕ) (p1 p2 : PathPoint)
        (s : SimState),
      foldActs (moveActs sqA scale index p1 p2) s =
        { s with velocity := 0
                 conesPlaced := index + 1
                 distanceTraveled :=
                   s.distanceTraveled + distPx sqA scale p1 p2 / scale }) ∧
    (runAll env sq 1 [⟨0, 0⟩, ⟨3, 0⟩, ⟨3, 4⟩] s0).distanceTraveled = 7 := by
  constructor
  · intro sqA scale index p1 p2 s
    exact foldActs_moveActs sqA scale index p1 p2 s
  · rw [runAll_three_point]
    have e1 : distPx sq 1 ⟨0, 0⟩ ⟨3, 0⟩ = 3 := by
      unfold distPx
      norm_num
      exact h9
    have e2 : distPx sq 1 ⟨3, 0⟩ ⟨3, 4⟩ = 4 := by
      unfold distPx
      norm_num
      exact h16
    simp [e1, e2]
    norm_num

/-- A concrete square-root routine correct at the two inputs the witness
run needs. -/
def sqW : ℚ → ℚ := fun q => if q = 9 then 3 else if q = 16 then 4 else 0

/-- A concrete wall-clock environment: no telemetry jitter, every placement
measured at 3800 ms. -/
def envW : RunEnv := ⟨fun _ _ _ => 0, fun _ => 3800⟩

/-- Witness for **C6** at a concrete input: with the square root evaluated
concretely at 9 and 16, the completed run over `(0,0) → (3,0) → (3,4)`
has travelled exactly 7 meters. -/
theorem C6_distance_accumulation_witness :
    (runAll envW sqW 1 [⟨0, 0⟩, ⟨3, 0⟩, ⟨3, 4⟩]
        initialState).distanceTraveled = 7 :=
  (C6_distance_accumulation envW sqW initialState
    (by norm_num [sqW]) (by norm_num [sqW])).2

/-- Whether a store call writes to `placementHistory`
(only `addPlacementHistory` does). -/
def isArchive : StoreAction → Bool
  | .archive _ _ => true
  | _ => false

/-- Whether a store call appends to `currentSequenceLogs`
(only `addSequenceLog` does). -/
def isLogStep : StoreAction → Bool
  | .logStep _ => true
  | _ => false

/-- A non-archiving store call leaves the placement history untouched. -/
theorem applyAction_history (a : StoreAction) (h : isArchive a = false)
    (s : SimState) :
    (applyAction a s).placementHistory = s.placementHistory := by
  cases a <;>
    simp_all [isArchive, applyAction, setSimulationStatus, updateTelemetry,
      updateSimulationStats, addSequenceLog, clearSequenceLogs]

/-- Folding a list with no archiving call leaves the history untouched. -/
theorem foldActs_history (L : List StoreAction)
    (h : ∀ a ∈ L, isArchive a = false) :
    ∀ s : SimState, (foldActs L s).placementHistory = s.placementHistory := by
  induction L with
  | nil => intro s; rfl
  | cons a L ih =>
    intro s
    have h1 : isArchive a = false := h a (List.mem_cons_self a L)
    have h2 : ∀ b ∈ L, isArchive b = false := fun b hb =>
      h b (List.mem_cons_of_mem a hb)
    calc (foldActs (a :: L) s).placementHistory
        = (foldActs L (applyAction a s)).placementHistory := rfl
      _ = (applyAction a s).placementHistory := ih h2 (applyAction a s)
      _ = s.placementHistory := applyAction_history a h1 s

/-- Every `PlacementHistoryEntry` in the state is complete: it carries
exactly the five per-step log entries of one full placement. -/
def HistOK (s : SimState) : Prop :=
  ∀ e ∈ s.placementHistory, e.logs = stepLogs

/-- A list of store calls is prefix-safe when stopping the run after any
prefix of it leaves only complete history entries. -/
def SafePrefix (L : List StoreAction) : Prop :=
  ∀ (s : SimState) (k : ℕ), HistOK s → HistOK (foldActs (L.take k) s)

theorem safePrefix_of_no_archive (L : List StoreAction)
    (h : ∀ a ∈ L, isArchive a = false) : SafePrefix L := by
  intro s k hs
  have hhist := foldActs_history (L.take k)
    (fun a ha => h a (List.mem_of_mem_take ha)) s
  intro e he
  rw [hhist] at he
  exact hs e he

theorem safePrefix_append (L₁ L₂ : List StoreAction)
    (h₁ : SafePrefix L₁) (h₂ : SafePrefix L₂) : SafePrefix (L₁ ++ L₂) := by
  intro s k hs
  rcases le_or_lt k L₁.length with hk | hk
  · rw [List.take_append_of_le_length hk]
    exact h₁ s k hs
  · rw [List.take_append_eq_append_take,
      List.take_of_length_le (le_of_lt hk), foldActs_append]
    have hall : HistOK (foldActs L₁ s) := by
      have := h₁ s L₁.length hs
      rwa [List.take_length] at this
    exact h₂ (foldActs L₁ s) (k - L₁.length) hall

theorem stepActs_no_archive (env : RunEnv) (cone i : ℕ) (st : HardwareStep) :
    ∀ a ∈ stepActs env cone i st, isArchive a = false := by
  cases st with
  | mk name durationMs mechVelocity =>
    intro a ha
    simp [stepActs] at ha
    rcases ha with ⟨t, _, rfl⟩ | rfl | rfl <;> simp [isArchive]

theorem placementPre_no_archive (env : RunEnv) (cone : ℕ) :
    ∀ a ∈ placementPre env cone, isArchive a = false := by
  intro a ha
  simp only [placementPre, List.append_assoc, List.mem_append,
    List.mem_cons, List.mem_singleton, List.not_mem_nil, or_false] at ha
  rcases ha with (rfl | rfl) | h | h | h | h | h
  · simp [isArchive]
  · simp [isArchive]
  all_goals exact stepActs_no_archive env cone _ _ _ h

/-- After the pre-phase of a placement (status set, buffer cleared, five
steps executed) the log buffer holds exactly the five per-step entries,
whatever state the placement started from. -/
theorem placementPre_logs (env : RunEnv) (cone : ℕ) (s : SimState) :
    (foldActs (placementPre env cone) s).currentSequenceLogs = stepLogs := by
  simp [foldActs, placementPre, stepActs, stepLogs, hardwareSteps,
    applyAction, updateTelemetry, addSequenceLog, clearSequenceLogs,
    setSimulationStatus, List.range_succ]

theorem safePrefix_placementActs (env : RunEnv) (cone : ℕ) :
    SafePrefix (placementActs env cone) := by
  intro s k hs
  unfold placementActs
  rcases le_or_lt k (placementPre env cone).length with hk | hk
  · rw [List.take_append_of_le_length hk]
    exact safePrefix_of_no_archive _ (placementPre_no_archive env cone) s k hs
  · rw [List.take_append_eq_append_take,
      List.take_of_length_le (le_of_lt hk), foldActs_append]
    have hpre : HistOK (foldActs (placementPre env cone) s) := by
      intro e he
      rw [foldActs_history _ (placementPre_no_archive env cone) s] at he
      exact hs e he
    have hlogs := placementPre_logs env cone s
    generalize hgen : foldActs (placementPre env cone) s = t at hpre hlogs
    match hnk : k - (placementPre env cone).length with
    | 0 =>
      simpa using hpre
    | 1 =>
      intro e he
      simp [foldActs, applyAction, addPlacementHistory] at he
      rcases he with rfl | he
      · exact hlogs
      · exact hpre e he
    | n + 2 =>
      intro e he
      have htake : (([StoreAction.archive cone (env.placementMs cone / 1000),
          StoreAction.setStatus .MOVING] : List StoreAction).take (n + 2)) =
          [StoreAction.archive cone (env.placementMs cone / 1000),
           StoreAction.setStatus .MOVING] :=
        List.take_of_length_le (by simp)
      rw [htake] at he
      simp [foldActs, applyAction, addPlacementHistory,
        setSimulationStatus] at he
      rcases he with rfl | he
      · exact hlogs
      · exact hpre e he

theorem moveActs_no_archive (sq : ℚ → ℚ) (scale : ℚ) (index : ℕ)
    (p1 p2 : PathPoint) :
    ∀ a ∈ moveActs sq scale index p1 p2, isArchive a = false := by
  intro a ha
  simp [moveActs] at ha
  rcases ha with rfl | rfl | rfl <;> simp [isArchive]

theorem completionActs_no_archive :
    ∀ a ∈ completionActs, isArchive a = false := by
  intro a ha
  simp [completionActs] at ha
  rcases ha with rfl | rfl | rfl <;> simp [isArchive]

theorem safePrefix_segmentActs (env : RunEnv) (sq : ℚ → ℚ) (scale : ℚ)
    (index : ℕ) (p1 p2 : PathPoint) :
    SafePrefix (segmentActs env sq scale index p1 p2) :=
  safePrefix_append _ _
    (safePrefix_of_no_archive _ (moveActs_no_archive sq scale index p1 p2))
    (safePrefix_placementActs env (index + 1))

theorem safePrefix_playActs (env : RunEnv) (sq : ℚ → ℚ) (scale : ℚ)
    (path : List PathPoint) (fuel : ℕ) :
    ∀ index : ℕ, SafePrefix (playActs env sq scale path fuel index) := by
  induction fuel with
  | zero =>
    intro index s k hs
    simpa [playActs] using hs
  | succ fuel ih =>
    intro index
    rw [playActs]
    split
    · exact safePrefix_of_no_archive _ completionActs_no_archive
    · exact safePrefix_append _ _
        (safePrefix_segmentActs env sq scale index _ _) (ih (index + 1))

theorem safePrefix_runActs (env : RunEnv) (sq : ℚ → ℚ) (scale : ℚ)
    (path : List PathPoint) : SafePrefix (runActs env sq scale path) := by
  rw [runActs]
  split
  · intro s k hs
    simpa using hs
  · have hcons : StoreAction.setStatus SimStatus.MOVING ::
        playActs env sq scale path path.length 0 =
        [StoreAction.setStatus SimStatus.MOVING] ++
          playActs env sq scale path path.length 0 := rfl
    rw [hcons]
    refine safePrefix_append _ _ ?_ (safePrefix_playActs env sq scale path _ 0)
    apply safePrefix_of_no_archive
    intro a ha
    simp at ha
    subst ha
    simp [isArchive]

/-- **C4**: calling `stop()` (`setIsSimulating(false)`) at any point `k`
of a run — in particular mid-`MOVING` or mid-`PLACING` — transitions the
status to `IDLE` immediately; the stop call itself appends no history entry
and no log entry; and the stopped state contains no partial
`PlacementHistoryEntry`: every entry in the history carries the complete
five-step log of a fully finished placement.  (The halting of the pending
timers and tweens — `cleanupParams` destroying every queued interval and
tween — is what the truncation of the action trace at `k` embeds: a
cancelled run contributes no store call beyond the prefix executed before
the stop.) -/
theorem C4_stop_cancellation (env : RunEnv) (sq : ℚ → ℚ) (scale : ℚ)
    (path : List PathPoint) (s0 : SimState) (k : ℕ) :
    (setIsSimulating false
        (foldActs ((runActs env sq scale path).take k)
          (startRun s0))).simulationStatus = .IDLE ∧
    (setIsSimulating false
        (foldActs ((runActs env sq scale path).take k)
          (startRun s0))).placementHistory =
      (foldActs ((runActs env sq scale path).take k)
          (startRun s0)).placementHistory ∧
    (setIsSimulating false
        (foldActs ((runActs env sq scale path).take k)
          (startRun s0))).currentSequenceLogs =
      (foldActs ((runActs env sq scale path).take k)
          (startRun s0)).currentSequenceLogs ∧
    ∀ e ∈ (setIsSimulating false
        (foldActs ((runActs env sq scale path).take k)
          (startRun s0))).placementHistory, e.logs = stepLogs := by
  have hstart : HistOK (startRun s0) := by
    intro e he
    simp [startRun, setIsSimulating, resetSimulationStats] at he
  have hok : HistOK (foldActs ((runActs env sq scale path).take k)
      (startRun s0)) :=
    safePrefix_runActs env sq scale path (startRun s0) k hstart
  refine ⟨by simp [setIsSimulating], by simp [setIsSimulating],
    by simp [setIsSimulating], ?_⟩
  intro e he
  simp only [setIsSimulating] at he
  exact hok e he

/-- Counterexample to **C5** as stated: starting a run on a 1-point path
(`handleStartPlacing` with zero cones produces `[{x:0,y:0}]`) leaves the
store's `simulationStatus` at `MOVING`, not `IDLE` — `setIsSimulating(true)`
forces `MOVING` unconditionally and the `RobotNode` guard then aborts
without resetting it, so the system sits in `MOVING` with no timers
running. -/
theorem C5_counterexample :
    (runAll envW sqW 1 [⟨0, 0⟩] initialState).simulationStatus =
        .MOVING ∧
    (runAll envW sqW 1 [⟨0, 0⟩] initialState).simulationStatus ≠
        .IDLE := by
  constructor
  · simp [runAll, runActs, foldActs, startRun, setIsSimulating,
      resetSimulationStats, initialState]
  · simp [runAll, runActs, foldActs, startRun, setIsSimulating,
      resetSimulationStats, initialState]

/-- **C5 (amended)**: starting a run with a path of fewer than 2 points
performs no movement and emits no engine store call at all (the engine's
action trace is empty, so stats, logs and history keep their reset
values); however the state after the start is *not* `IDLE`: the start call
(`setIsSimulating(true)`) has unconditionally set `simulationStatus` to
`MOVING`, and nothing resets it, leaving the store in `MOVING` with no
timers running. -/
theorem C5_short_path_no_op (env : RunEnv) (sq : ℚ → ℚ) (scale : ℚ)
    (path : List PathPoint) (s0 : SimState) (h : path.length < 2) :
    runActs env sq scale path = [] ∧
    runAll env sq scale path s0 = startRun s0 ∧
    (runAll env sq scale path s0).simulationStatus = .MOVING := by
  have hempty : runActs env sq scale path = [] := by
    simp [runActs, h]
  refine ⟨hempty, ?_, ?_⟩
  · simp [runAll, hempty, foldActs]
  · simp [runAll, hempty, foldActs, startRun, setIsSimulating]

/-- Witness for the amended **C5** at a concrete input: the single-point
path (zero cones plus the origin). -/
theorem C5_short_path_no_op_witness :
    runActs envW sqW 1 [⟨0, 0⟩] = [] ∧
    runAll envW sqW 1 [⟨0, 0⟩] initialState =
      startRun initialState ∧
    (runAll envW sqW 1 [⟨0, 0⟩]
        initialState).simulationStatus = .MOVING :=
  C5_short_path_no_op envW sqW 1 [⟨0, 0⟩] initialState (by simp)

/-- Counterexample to **C7** as stated: the log buffer is *not* cleared
when all steps of a placement finish — after a full placement from the
initial state, `currentSequenceLogs` still holds the five per-step
entries. -/
theorem C7_counterexample :
    (foldActs (placementActs envW 1) initialState).currentSequenceLogs ≠
      [] := by
  rw [foldActs_placementActs]
  simp [stepLogs, hardwareSteps]

/-- **C7 (amended)**: during every `PLACING` phase, each completed hardware
step appends exactly one `SequenceLog` entry carrying its name and its
time; when all steps finish, the accumulated `SequenceLog` plus the
waypoint index and the measured total elapsed time of the whole placement
become one `PlacementHistoryEntry` prepended to history (newest first).
The log buffer, however, is cleared at the *start* of each placement
(`clearSequenceLogs()` is the second store call of `runPlacementSequence`),
not at its end: after a placement completes, the buffer still holds that
placement's five entries until the next placement begins. -/
theorem C7_placement_logging (env : RunEnv) (cone : ℕ) (s : SimState) :
    (∀ (stepIdx : ℕ) (st : HardwareStep),
      (stepActs env cone stepIdx st).filter isLogStep =
        [StoreAction.logStep ⟨st.name, (st.durationMs : ℚ) / 1000⟩]) ∧
    foldActs (placementActs env cone) s =
      { s with simulationStatus := .MOVING
               mechanismVelocity := 0
               currentSequenceLogs := stepLogs
               placementHistory :=
                 ⟨cone, env.placementMs cone / 1000, stepLogs⟩ ::
                   s.placementHistory } ∧
    foldActs ((placementActs env cone).take 2) s =
      clearSequenceLogs (setSimulationStatus .PLACING s) := by
  refine ⟨?_, foldActs_placementActs env cone s, ?_⟩
  · intro stepIdx st
    cases st with
    | mk name durationMs mechVelocity =>
      have hmap : ∀ l : List ℕ,
          (l.map fun t => StoreAction.telemetry none
            (some (mechVelocity + env.jitter cone stepIdx t))).filter
              isLogStep = [] := by
        intro l
        induction l with
        | nil => rfl
        | cons t l ih => simp [isLogStep, ih]
      simp [stepActs, List.filter_append, hmap, isLogStep]
  · have htake : (placementActs env cone).take 2 =
        [StoreAction.setStatus .PLACING, StoreAction.clearLogs] := by
      simp [placementActs, placementPre]
    rw [htake]
    simp [foldActs, applyAction, setSimulationStatus, clearSequenceLogs]

/-- A wall-clock environment in which every placement's measured duration
is 4000 ms — longer than the 3800 ms nominal sum, as happens under real
timer scheduling. -/
def envSlow : RunEnv := ⟨fun _ _ _ => 0, fun _ => 4000⟩

/-- **C10**: every placement-step log entry records the step's *fixed
nominal* duration in seconds — `[1.2, 0.6, 1.0, 0.8, 0.2]` for the five
steps in order, independent of the wall-clock environment — while the
enclosing `PlacementHistoryEntry.totalTime` is the *measured* wall-clock
duration of the whole placement (`(Date.now() - startTime)/1000`, here
`placementMs cone / 1000`); hence the sum of an entry's log times (3.8 s)
need not equal its `totalTime` (with every placement measured at 4000 ms,
`totalTime` is 4 s). -/
theorem C10_nominal_logs_measured_total (env : RunEnv) (cone : ℕ)
    (s : SimState) :
    (foldActs (placementActs env cone) s).placementHistory =
      ⟨cone, env.placementMs cone / 1000, stepLogs⟩ ::
        s.placementHistory ∧
    stepLogs.map SequenceLogEntry.timeTaken = [1.2, 0.6, 1.0, 0.8, 0.2] ∧
    (stepLogs.map SequenceLogEntry.timeTaken).sum = 3.8 ∧
    (foldActs (placementActs envSlow 1) initialState).placementHistory.map
        PlacementHistoryEntry.totalTime = [4] ∧
    (stepLogs.map SequenceLogEntry.timeTaken).sum ≠ (4 : ℚ) := by
  refine ⟨?_, ?_, ?_, ?_, ?_⟩
  · rw [foldActs_placementActs]
  · norm_num [stepLogs, hardwareSteps]
  · norm_num [stepLogs, hardwareSteps]
  · rw [foldActs_placementActs]
    norm_num [envSlow, initialState]
  · norm_num [stepLogs, hardwareSteps]

/-! ## The hardware-link client

`rosbridge.ts` keeps `baseUrl`, a poll-interval handle (`pollInterval`,
modelled as the flag `polling`), and the `_connected` flag.  Once a
connection is established, a 5 Hz interval polls `GET {base}/odom`; the
poll callback's semantics (lines 51–64) are embedded as a transition on
the client state driven by one poll outcome per tick. -/

/-- `RobotPose` from `rosbridge.ts`: `{x, y, theta}`. -/
structure RobotPose where
  x : ℚ
  y : ℚ
  theta : ℚ
deriving DecidableEq, Repr

/-- Observable client state of `RosBridge`: `baseUrl`, whether the poll
interval is installed (`pollInterval !== null`), and `_connected`. -/
structure RosBridgeState where
  baseUrl : String
  polling : Bool
  connected : Bool
deriving DecidableEq, Repr

/-- Events the client emits to its collaborators: the
`onConnectionChange` and `onPoseUpdate` callbacks. -/
inductive RosEvent where
  | connectionChange (b : Bool)
  | poseUpdate (p : RobotPose)
deriving DecidableEq, Repr

/-- What one `fetch(baseUrl + "/odom")` can produce: a parsed pose
(`res.ok` with a body), a response with non-OK HTTP status (`res.ok`
false), or a thrown error (network failure, caught by the `catch`). -/
inductive PollOutcome where
  | ok (pose : RobotPose)
  | httpErr
  | netErr
deriving DecidableEq, Repr

/-- `disconnect()` (`rosbridge.ts` lines 67–74): clears the poll interval
if any, resets `_connected` and `baseUrl`; idempotent; emits nothing. -/
def rosDisconnect (s : RosBridgeState) : RosBridgeState :=
  { s with baseUrl := "", polling := false, connected := false }

/-- One firing of the poll interval (`rosbridge.ts` lines 51–64).  When no
interval is installed, nothing fires.  On `res.ok` the pose callback is
invoked; on a non-OK response the body of `if (res.ok)` is simply skipped
(no state change, no event); on a thrown fetch error the `catch` sets
`_connected = false`, fires `onConnectionChange(false)` and calls
`disconnect()` — the error is swallowed inside the interval callback,
never escalated (the embedding is a total function: there is no error
result). -/
def pollTick (o : PollOutcome) (s : RosBridgeState) :
    RosBridgeState × List RosEvent :=
  if s.polling then
    match o with
    | .ok pose => (s, [RosEvent.poseUpdate pose])
    | .httpErr => (s, [])
    | .netErr =>
        (rosDisconnect { s with connected := false },
         [RosEvent.connectionChange false])
  else (s, [])

/-- A sequence of scheduled poll-interval firings. -/
def pollRun (s : RosBridgeState) : List PollOutcome →
    RosBridgeState × List RosEvent
  | [] => (s, [])
  | o :: os =>
    let r := pollTick o s
    let r2 := pollRun r.1 os
    (r2.1, r.2 ++ r2.2)

/-- Once polling has stopped, no later scheduled firing changes the state
or emits an event — there is no automatic reconnection. -/
theorem pollRun_stopped (outs : List PollOutcome) :
    ∀ s : RosBridgeState, s.polling = false → pollRun s outs = (s, []) := by
  induction outs with
  | nil => intro s _; rfl
  | cons o os ih =>
    intro s hs
    have htick : pollTick o s = (s, []) := by
      simp [pollTick, hs]
    simp [pollRun, htick, ih s hs]

/-- Counterexample to **C8** as stated: for an established connection
(polling, connected), a pose poll that fails with a non-OK HTTP response
does *not* mark the client disconnected and does *not* stop polling — the
source's poll callback only reacts to `res.ok` and to thrown errors, so an
HTTP-level failure is silently ignored and polling continues. -/
theorem C8_counterexample :
    (pollTick .httpErr ⟨"http://robot", true, true⟩).1.connected = true ∧
    (pollTick .httpErr ⟨"http://robot", true, true⟩).1.polling = true ∧
    (pollTick .httpErr ⟨"http://robot", true, true⟩).1.connected ≠ false := by
  refine ⟨rfl, rfl, by simp [pollTick]⟩

/-- **C8 (amended)**: for every established hardware-link connection, a
poll failure that *throws* (a network-level error) causes the client to
mark itself disconnected (`connected` becomes false) and stop polling,
emitting the connection-change event and never escalating an exception
(the tick is a total function); afterwards no scheduled firing changes the
state or emits anything — reconnection is not automatic.  A poll that
fails with a non-OK HTTP response, however, is silently ignored: the
client stays connected and keeps polling. -/
theorem C8_poll_failure_disconnects (s : RosBridgeState)
    (outs : List PollOutcome) (hpoll : s.polling = true)
    (_hconn : s.connected = true) :
    (pollTick .netErr s).1.connected = false ∧
    (pollTick .netErr s).1.polling = false ∧
    (pollTick .netErr s).2 = [RosEvent.connectionChange false] ∧
    pollRun (pollTick .netErr s).1 outs = ((pollTick .netErr s).1, []) ∧
    pollTick .httpErr s = (s, []) := by
    have hnet : pollTick .netErr s =
        (rosDisconnect { s with connected := false },
         [RosEvent.connectionChange false]) := by
      simp [pollTick, hpoll]
    refine ⟨?_, ?_, ?_, ?_, ?_⟩
    · rw [hnet]; rfl
    · rw [hnet]; rfl
    · rw [hnet]
    · rw [hnet]
      exact pollRun_stopped outs _ rfl
    · simp [pollTick, hpoll]

/-- Witness for the amended **C8** at a concrete input: an established
connection to `"http://robot"`, with one further scheduled poll after the
failure. -/
theorem C8_poll_failure_disconnects_witness :
    (pollTick .netErr ⟨"http://robot", true, true⟩).1.connected = false ∧
    (pollTick .netErr ⟨"http://robot", true, true⟩).1.polling = false ∧
    (pollTick .netErr ⟨"http://robot", true, true⟩).2 =
      [RosEvent.connectionChange false] ∧
    pollRun (pollTick .netErr ⟨"http://robot", true, true⟩).1
        [PollOutcome.ok ⟨0, 0, 0⟩] =
      ((pollTick .netErr ⟨"http://robot", true, true⟩).1, []) ∧
    pollTick .httpErr ⟨"http://robot", true, true⟩ =
      (⟨"http://robot", true, true⟩, []) :=
  C8_poll_failure_disconnects ⟨"http://robot", true, true⟩
    [PollOutcome.ok ⟨0, 0, 0⟩] rfl rfl
